import Mathlib

/-!
Verification development for mackerel-plugin-dnsdist
(cmd/mackerel-plugin-dnsdist/main.go).

The Go program is shallowly embedded below:

* JSON values as decoded by `encoding/json` with `decoder.UseNumber()`
  (numbers keep their literal decimal text), the `fmt.Sprintf("%v", b)`
  rendering used by `Plugin.FetchMetrics`, and a model of
  `strconv.ParseFloat(s, 64)`.
* `Opt.URL` (net.JoinHostPort plus net/url escaping and String()).
* `Opt.GetAPIKey` with a specialized leftmost-first backtracking matcher
  for the fixed pattern `setWebserverConfig\(.*\{.*\bapiKey\s*=\s*"(.+?)"`.
* `Plugin.MetricKeyPrefix` (lazy default, modelled with explicit state).
* `Plugin.GraphDefinition` (the static graph catalog; the Go map is
  modelled as an association list in source order).
* The net/http redirect loop restricted to the plugin's
  `CheckRedirect = ErrUseLastResponse` policy.
-/

/-- A JSON value as produced by `json.Decoder` with `UseNumber()`:
a JSON number is kept as its literal decimal text (`json.Number`),
objects become `map[string]interface{}` and arrays `[]interface{}`. -/
inductive JValue where
  | num (text : String)
  | str (s : String)
  | bool (b : Bool)
  | null
  | arr (xs : List JValue)
  | obj (fields : List (String × JValue))

/-- Result of a successful `strconv.ParseFloat`. The numeric value of a
finite parse is modelled as the exact rational denoted by the decimal
(or hexadecimal) text; the final rounding to binary64 and the ErrRange
overflow/underflow check are below the granularity of this model. -/
inductive GoFloat where
  | finite (q : ℚ)
  | inf (neg : Bool)
  | nan
deriving DecidableEq, Repr

/-- ASCII decimal digit value. -/
def decDigitVal (c : Char) : Nat := c.toNat - 48

def isHexDigitCh (c : Char) : Bool :=
  c.isDigit || ('a' ≤ c && c ≤ 'f') || ('A' ≤ c && c ≤ 'F')

def hexDigitVal (c : Char) : Nat :=
  if c.isDigit then c.toNat - 48
  else if 'a' ≤ c && c ≤ 'f' then c.toNat - 87
  else c.toNat - 55

/-- Digits of base `base` folded into a natural number. -/
def natOfDigits (base : Nat) (val : Char → Nat) (ds : List Char) : Nat :=
  ds.foldl (fun a c => a * base + val c) 0

/-- Scan a run of digits in which a single underscore may sit between two
digits (the shape accepted by strconv's underscoreOK); returns the digits
read (underscores removed) and the unconsumed rest. -/
def scanDigitsUAux (isD : Char → Bool) : List Char → List Char → List Char × List Char
  | acc, [] => (acc.reverse, [])
  | acc, c :: rest =>
    if isD c then scanDigitsUAux isD (c :: acc) rest
    else if c = '_' then
      match rest with
      | [] => (acc.reverse, ['_'])
      | d :: rest2 =>
        if isD d then scanDigitsUAux isD (d :: acc) rest2
        else (acc.reverse, '_' :: d :: rest2)
    else (acc.reverse, c :: rest)

def scanDigitsU (isD : Char → Bool) (cs : List Char) : List Char × List Char :=
  match cs with
  | [] => ([], [])
  | c :: rest => if isD c then scanDigitsUAux isD [c] rest else ([], cs)

/-- The exact rational `m * base ^ e`, built with a single `mkRat` so the
value is kernel-computable. -/
def qOfScaled (base : Nat) (m : Nat) (e : Int) : ℚ :=
  if 0 ≤ e then mkRat ((m : Int) * ((base ^ e.toNat : Nat) : Int)) 1
  else mkRat (m : Int) (base ^ (-e).toNat)

/-- Optional sign followed by at least one decimal digit (the exponent
syntax of strconv's readFloat). -/
def parseSignedDigits (cs : List Char) : Option (Int × List Char) :=
  let p : Bool × List Char :=
    match cs with
    | c :: r => if c = '+' then (false, r) else if c = '-' then (true, r) else (false, c :: r)
    | [] => (false, [])
  match scanDigitsU Char.isDigit p.2 with
  | ([], _) => none
  | (ds, rest) =>
    let n : Int := (natOfDigits 10 decDigitVal ds : Nat)
    some (if p.1 then -n else n, rest)

/-- The optional fractional part: a decimal point followed by a digit
run; nothing is consumed when the text does not start with a point. -/
def fracScan (isD : Char → Bool) (cs : List Char) : List Char × List Char :=
  match cs with
  | '.' :: r => scanDigitsU isD r
  | _ => ([], cs)

/-- The exponent of strconv's readFloat: an exponent marker (`e`/`E` or
`p`/`P`) with signed digits; when the marker is absent, the number ends
here for decimal syntax (`allowNoExp`), while hexadecimal floats require
the exponent. The resulting value is `m * vbase ^ (exp - k)`. -/
def expScan (e1 e2 : Char) (vbase : Nat) (m : Nat) (k : Int) (allowNoExp : Bool) :
    List Char → Option (ℚ × List Char)
  | c :: r =>
    if c = e1 ∨ c = e2 then
      match parseSignedDigits r with
      | some er => some (qOfScaled vbase m (er.1 - k), er.2)
      | none => none
    else if allowNoExp then some (qOfScaled vbase m (-k), c :: r) else none
  | [] => if allowNoExp then some (qOfScaled vbase m (-k), []) else none

/-- Decimal mantissa and optional `e`/`E` exponent of strconv.ParseFloat. -/
def parseDecNumber (cs : List Char) : Option (ℚ × List Char) :=
  let ipr := scanDigitsU Char.isDigit cs
  let fpr := fracScan Char.isDigit ipr.2
  if ipr.1 = [] ∧ fpr.1 = [] then none
  else expScan 'e' 'E' 10 (natOfDigits 10 decDigitVal (ipr.1 ++ fpr.1))
    ((fpr.1.length : Nat) : Int) true fpr.2

/-- A single underscore between the `0x` base prefix and the first hex
digit is allowed by strconv's underscoreOK. -/
def hexUnderscoreSkip (cs : List Char) : List Char :=
  match cs with
  | '_' :: d :: rest => if isHexDigitCh d then d :: rest else '_' :: d :: rest
  | _ => cs

/-- Hexadecimal mantissa with mandatory `p`/`P` binary exponent
(text after the `0x` prefix). -/
def parseHexNumber (cs : List Char) : Option (ℚ × List Char) :=
  let ipr := scanDigitsU isHexDigitCh (hexUnderscoreSkip cs)
  let fpr := fracScan isHexDigitCh ipr.2
  if ipr.1 = [] ∧ fpr.1 = [] then none
  else expScan 'p' 'P' 2 (natOfDigits 16 hexDigitVal (ipr.1 ++ fpr.1))
    (4 * ((fpr.1.length : Nat) : Int)) false fpr.2

/-- Number syntax of strconv.ParseFloat after the optional leading sign:
a hexadecimal float when the text starts with `0x`/`0X`, a decimal float
otherwise. -/
def parseNumber (cs : List Char) : Option (ℚ × List Char) :=
  match cs with
  | c0 :: c1 :: rest =>
    if c0 = '0' ∧ (c1 = 'x' ∨ c1 = 'X') then parseHexNumber rest
    else parseDecNumber (c0 :: c1 :: rest)
  | _ => parseDecNumber cs

def lowerStr (cs : List Char) : List Char := cs.map Char.toLower

def specialInfCore (rest : List Char) (neg : Bool) : Option GoFloat :=
  if lowerStr rest = "inf".data ∨ lowerStr rest = "infinity".data then some (.inf neg) else none

/-- The special values recognized by strconv.ParseFloat: case-insensitive
`inf`/`infinity` with optional sign, and unsigned `nan`. -/
def parseSpecial (cs : List Char) : Option GoFloat :=
  match cs with
  | [] => none
  | c :: rest =>
    if c = '+' then specialInfCore rest false
    else if c = '-' then specialInfCore rest true
    else if lowerStr (c :: rest) = "inf".data ∨ lowerStr (c :: rest) = "infinity".data then
      some (.inf false)
    else if lowerStr (c :: rest) = "nan".data then some .nan
    else none

/-- Model of `strconv.ParseFloat(s, 64)`: `some` exactly when Go returns a
nil syntax error, carrying the exact value denoted by the text. The whole
string must be consumed, as in Go. -/
def goParseFloat (s : String) : Option GoFloat :=
  match parseSpecial s.data with
  | some f => some f
  | none =>
    let p : Bool × List Char :=
      match s.data with
      | c :: r => if c = '+' then (false, r) else if c = '-' then (true, r) else (false, c :: r)
      | [] => (false, [])
    match parseNumber p.2 with
    | some (q, []) => some (.finite (if p.1 then -q else q))
    | _ => none

/-- Lexicographic code-point comparison, the order `<` of Go strings
(byte-wise UTF-8 comparison agrees with code-point order). -/
def listCharLt : List Char → List Char → Bool
  | [], [] => false
  | [], _ :: _ => true
  | _ :: _, [] => false
  | a :: as, b :: bs =>
    if a.toNat < b.toNat then true
    else if b.toNat < a.toNat then false
    else listCharLt as bs

def strKeyLt (a b : String) : Bool := listCharLt a.data b.data

/-- Insertion into a key-sorted association list (byte-wise string order,
as fmt's map printing sorts string keys). -/
def insertByKey (kv : String × String) : List (String × String) → List (String × String)
  | [] => [kv]
  | q :: rest => if strKeyLt kv.1 q.1 then kv :: q :: rest else q :: insertByKey kv rest

def sortByKey : List (String × String) → List (String × String)
  | [] => []
  | kv :: rest => insertByKey kv (sortByKey rest)

mutual
/-- Model of `fmt.Sprintf("%v", b)` on a decoded JSON value: a
`json.Number` or string prints as its text, booleans as `true`/`false`,
nil as `<nil>`, slices as space-separated values in brackets, and maps as
`map[k1:v1 k2:v2]` with keys sorted. -/
def sprintfV : JValue → String
  | .num t => t
  | .str s => s
  | .bool b => if b then "true" else "false"
  | .null => "<nil>"
  | .arr xs => "[" ++ String.intercalate " " (sprintfVList xs) ++ "]"
  | .obj fs =>
    "map[" ++ String.intercalate " "
      ((sortByKey (sprintfVFields fs)).map (fun kv => kv.1 ++ ":" ++ kv.2)) ++ "]"
termination_by structural v => v

def sprintfVList : List JValue → List String
  | [] => []
  | x :: xs => sprintfV x :: sprintfVList xs
termination_by structural l => l

def sprintfVFields : List (String × JValue) → List (String × String)
  | [] => []
  | (k, v) :: fs => (k, sprintfV v) :: sprintfVFields fs
termination_by structural l => l
end

/-- The value-coercion loop of `Plugin.FetchMetrics` (main.go:193-201):
every decoded top-level field is rendered with `%v` and handed to
ParseFloat; fields whose text fails to parse are skipped, never an error.
The decoded top-level object is modelled as an association list. -/
def coerceMetrics (t : List (String × JValue)) : List (String × GoFloat) :=
  t.filterMap (fun kv => (goParseFloat (sprintfV kv.2)).map (fun f => (kv.1, f)))

/-! ## Opt.URL (main.go:39-47)

`url.URL{Scheme: "http", Host: net.JoinHostPort(host, port),
Path: "/jsonstat", RawQuery: "command=stats"}.String()`.
`URL.String` writes the host percent-escaped in host mode; the fixed path
and query contain no escapable characters and are emitted verbatim. -/

/-- Bytes left unescaped by net/url host-mode escaping: alphanumerics,
the unreserved marks, and the sub-delimiters allowed in a host. -/
def shouldEscapeHostByte (b : Nat) : Bool :=
  !(decide ((48 ≤ b ∧ b ≤ 57) ∨ (65 ≤ b ∧ b ≤ 90) ∨ (97 ≤ b ∧ b ≤ 122)
      ∨ b = 45 ∨ b = 95 ∨ b = 46 ∨ b = 126
      ∨ b = 33 ∨ b = 36 ∨ b = 38 ∨ b = 39 ∨ (40 ≤ b ∧ b ≤ 44)
      ∨ b = 59 ∨ b = 61 ∨ b = 58 ∨ b = 91 ∨ b = 93 ∨ b = 60 ∨ b = 62 ∨ b = 34))

def hexUpperDigit (n : Nat) : Char :=
  if n < 10 then Char.ofNat (48 + n) else Char.ofNat (55 + n)

/-- UTF-8 bytes of a character, as the byte values Go escaping works on. -/
def utf8Bytes (c : Char) : List Nat :=
  let n := c.toNat
  if n < 0x80 then [n]
  else if n < 0x800 then [0xC0 + n / 0x40, 0x80 + n % 0x40]
  else if n < 0x10000 then
    [0xE0 + n / 0x1000, 0x80 + (n / 0x40) % 0x40, 0x80 + n % 0x40]
  else
    [0xF0 + n / 0x40000, 0x80 + (n / 0x1000) % 0x40, 0x80 + (n / 0x40) % 0x40, 0x80 + n % 0x40]

def escHostByte (b : Nat) : List Char :=
  if shouldEscapeHostByte b then ['%', hexUpperDigit (b / 16), hexUpperDigit (b % 16)]
  else [Char.ofNat b]

def escapeHostList : List Char → List Char
  | [] => []
  | c :: rest => ((utf8Bytes c).map escHostByte).flatten ++ escapeHostList rest

def escapeHost (s : String) : String := ⟨escapeHostList s.data⟩

/-- `net.JoinHostPort`: a host containing a colon is taken as an IPv6
literal and wrapped in square brackets. -/
def joinHostPort (host port : String) : String :=
  if host.data.contains ':' then "[" ++ host ++ "]:" ++ port
  else host ++ ":" ++ port

/-- `Opt.URL` (main.go:39-47). -/
def optURL (host port : String) : String :=
  "http://" ++ escapeHost (joinHostPort host port) ++ "/jsonstat?command=stats"

/-! ## Opt.GetAPIKey (main.go:49-64)

`apiKeyRegexp = setWebserverConfig\(.*\{.*\bapiKey\s*=\s*"(.+?)"`, Go
regexp semantics (leftmost-first, `.` not matching newline, `\s` matching
`[ \t\n\f\r]`, `\b` an ASCII word boundary). The fixed pattern is
embedded as a specialized backtracking matcher: greedy stars prefer the
longest consumption, the lazy `(.+?)` the shortest, and the overall match
is the leftmost one, exactly the first element of `FindAllSubmatch`. -/

def isWordChar (c : Char) : Bool := c.isAlpha || c.isDigit || c = '_'

/-- The character class of `\s` in Go regexp: `[ \t\n\f\r]`. -/
def isSpaceRE (c : Char) : Bool :=
  c = ' ' || c = '\t' || c = '\n' || c = '\x0c' || c = '\r'

/-- The lazy `(.+?)"` at the end of the pattern: consume at least one
non-newline character, stopping at the first closing double quote. -/
def captureGo (acc : List Char) : List Char → Option (List Char)
  | [] => none
  | c :: rest =>
    if c = '"' then some acc.reverse
    else if c = '\n' then none
    else captureGo (c :: acc) rest

def captureLazy : List Char → Option (List Char)
  | [] => none
  | c :: rest => if c = '\n' then none else captureGo [c] rest

/-- The deterministic tail `\s*=\s*"(.+?)"` after the `apiKey` literal
(`=` and `"` are not whitespace, so greedy `\s*` has a single viable
consumption). -/
def tailMatch (cs : List Char) : Option (List Char) :=
  match cs.dropWhile isSpaceRE with
  | '=' :: r1 =>
    match r1.dropWhile isSpaceRE with
    | '"' :: r2 => captureLazy r2
    | _ => none
  | _ => none

def hereApiKey (prev : Char) (cs : List Char) : Option (List Char) :=
  if isWordChar prev then none
  else if "apiKey".data.isPrefixOf cs then tailMatch (cs.drop 6)
  else none

/-- Greedy `.*\bapiKey...` after the brace: the rightmost viable `apiKey`
occurrence reachable without crossing a newline wins. `prev` is the text
character just before the current position (for the `\b` check). -/
def findApiKeyGreedy (prev : Char) : List Char → Option (List Char)
  | [] => none
  | c :: rest =>
    match (if c = '\n' then none else findApiKeyGreedy c rest) with
    | some g => some g
    | none => hereApiKey prev (c :: rest)

/-- Greedy `.*\{...` after the literal: the rightmost viable `{`
reachable without crossing a newline wins. -/
def findBraceGreedy : List Char → Option (List Char)
  | [] => none
  | c :: rest =>
    match (if c = '\n' then none else findBraceGreedy rest) with
    | some g => some g
    | none => if c = '{' then findApiKeyGreedy '{' rest else none

def wsConfigLit : List Char := "setWebserverConfig(".data

/-- Leftmost match of the whole pattern: the earliest occurrence of the
`setWebserverConfig(` literal from which the rest of the pattern
matches. Returns the capture of group 1. -/
def findFirstMatchAux : List Char → Option (List Char)
  | [] => none
  | c :: rest =>
    match (if wsConfigLit.isPrefixOf (c :: rest) then
             findBraceGreedy ((c :: rest).drop wsConfigLit.length)
           else none) with
    | some g => some g
    | none => findFirstMatchAux rest

/-- Capture of group 1 of the first (leftmost) match of apiKeyRegexp,
or none when `FindAllSubmatch` finds no match. -/
def findFirstMatch (s : String) : Option String :=
  (findFirstMatchAux s.data).map List.asString

/-- `Opt.GetAPIKey` (main.go:51-64). The explicit flag value wins; the
config file read is modelled by `conf` (`none` for an unreadable file);
on a read failure or a pattern miss the empty string is returned. -/
def GetAPIKey (flagAPIKey : String) (conf : Option String) : String :=
  if flagAPIKey ≠ "" then flagAPIKey
  else
    match conf with
    | none => ""
    | some buf =>
      match findFirstMatch buf with
      | none => ""
      | some g => g

/-- The worked example of the specification: a configuration file
containing a setWebserverConfig call with an apiKey field. -/
def exampleConf : String := "setWebserverConfig(\x7b..., apiKey = \"secret123\", ...\x7d)"

/-- A configuration whose apiKey assignment is split across two lines:
the newline sits between the equals sign and the quoted value. -/
def badConf : String := "setWebserverConfig(\x7b apiKey =\n\"x\" \x7d)"

/-! ## strings.Title and the Plugin type -/

/-- `isSeparator` of strings.Title: an ASCII character is a separator
unless it is a letter, a digit or an underscore. For characters above
0x7F only Unicode space characters are separators; they are outside the
ASCII fragment this model covers and are treated as non-separators. -/
def goIsSeparator (c : Char) : Bool :=
  if c.toNat ≤ 0x7F then !(c.isDigit || c.isAlpha || c = '_') else false

/-- `strings.Title`: title-case the character following each separator,
with the position before the string counting as a separator (`prev`
starts as a space). `Char.toUpper` is the ASCII fragment of
`unicode.ToTitle`. -/
def stringsTitleAux : Char → List Char → List Char
  | _, [] => []
  | prev, c :: rest =>
    (if goIsSeparator prev then c.toUpper else c) :: stringsTitleAux c rest

def stringsTitle (s : String) : String := ⟨stringsTitleAux ' ' s.data⟩

/-- The fields of `type Plugin struct` (main.go:66-71). -/
structure Plugin where
  Prefix : String
  URL : String
  Timeout : Int
  APIKey : String

/-- `Plugin.MetricKeyPrefix` (main.go:93-98) mutates the receiver's
Prefix field when it is empty; the mutation is modelled by returning the
updated receiver next to the returned string. -/
def MetricKeyPrefix (p : Plugin) : String × Plugin :=
  if p.Prefix = "" then ("dnsdist", { p with Prefix := "dnsdist" })
  else (p.Prefix, p)

namespace mp

/-- `mp.Metrics` of go-mackerel-plugin, the fields used by this plugin. -/
structure Metrics where
  Name : String
  Label : String
  Stacked : Bool := false
  Diff : Bool := false
deriving DecidableEq, Repr

/-- `mp.Graphs` of go-mackerel-plugin, the fields used by this plugin. -/
structure Graphs where
  Label : String
  Unit : String
  Metrics : List Metrics
deriving DecidableEq, Repr

end mp

/-- `Plugin.GraphDefinition` (main.go:100-169). The returned Go map is
modelled as an association list whose entries appear in the order of the
source's map literal. -/
def GraphDefinition (p : Plugin) : List (String × mp.Graphs) :=
  let labelPrefix := stringsTitle p.Prefix
  [ ("acl-drop",
     { Label := labelPrefix ++ ": Dropped packets becaused of the ACL"
       Unit := "integer"
       Metrics := [{ Name := "acl-drops", Label := "Dropped", Diff := true }] }),
    ("cache",
     { Label := labelPrefix ++ ": Packet Cache"
       Unit := "integer"
       Metrics := [
         { Name := "cache-hits", Label := "Hits", Stacked := true, Diff := true },
         { Name := "cache-misses", Label := "Misses", Stacked := true, Diff := true }] }),
    ("downstream-errors",
     { Label := labelPrefix ++ ": Backend errors"
       Unit := "integer"
       Metrics := [
         { Name := "downstream-send-errors", Label := "Send error", Diff := true },
         { Name := "downstream-timeouts", Label := "Timeouts", Diff := true }] }),
    ("latency",
     { Label := labelPrefix ++ ": Latency (microseconds)"
       Unit := "integer"
       Metrics := [{ Name := "latency-avg1000000", Label := "Latency1000000" }] }),
    ("queries",
     { Label := labelPrefix ++ ": Queries"
       Unit := "integer"
       Metrics := [
         { Name := "queries", Label := "Queries", Diff := true },
         { Name := "rdqueries", Label := "Query widh rd bit", Diff := true }] }),
    ("responses",
     { Label := labelPrefix ++ ": Response"
       Unit := "integer"
       Metrics := [
         { Name := "responses", Label := "Backend responses", Diff := true },
         { Name := "self-answered", Label := "Self answered", Diff := true },
         { Name := "servfail-responses", Label := "Backend servfail", Diff := true }] }),
    ("rule",
     { Label := labelPrefix ++ ": Returned because of rules"
       Unit := "integer"
       Metrics := [
         { Name := "rule-drop", Label := "Drop", Stacked := true, Diff := true },
         { Name := "rule-nxdomain", Label := "Nxdomain", Stacked := true, Diff := true },
         { Name := "rule-refused", Label := "Refused", Stacked := true, Diff := true },
         { Name := "rule-servfail", Label := "Servfail", Stacked := true, Diff := true },
         { Name := "rule-truncated", Label := "Truncated", Stacked := true, Diff := true }] }),
    ("fd",
     { Label := labelPrefix ++ ": FD usage"
       Unit := "integer"
       Metrics := [{ Name := "fd-usage", Label := "usage" }] }) ]

/-! ## The HTTP client redirect policy (main.go:73-90)

`Plugin.httpClient` installs `CheckRedirect` returning
`http.ErrUseLastResponse`. The net/http redirect loop is embedded below:
after each response, a redirect is considered only for the statuses of
`redirectBehavior` (301, 302, 303, 307, 308) that carry a Location
header; before following, `CheckRedirect` is consulted, and
`ErrUseLastResponse` makes the client return the current response with a
nil error. A response whose Location header is absent is likewise
returned as-is. The server is modelled as a function from the request
number to the response; the Location value is kept abstract
(already-parsed). -/

inductive RedirectPolicy where
  | useLastResponse
  | defaultFollow
deriving DecidableEq

structure HTTPResponse where
  StatusCode : Nat
  Location : Option String
  Body : String
deriving DecidableEq, Repr

/-- The statuses `redirectBehavior` treats as redirects. -/
def shouldRedirectStatus (code : Nat) : Bool :=
  code = 301 || code = 302 || code = 303 || code = 307 || code = 308

/-- The redirect loop of net/http `Client.do`, specialized to the
redirect decision: `fuel` counts the follow-ups still allowed by the
default ten-request limit. -/
def clientDoLoop (send : Nat → HTTPResponse) (policy : RedirectPolicy) :
    Nat → Nat → Except String HTTPResponse
  | hop, fuel =>
    let resp := send hop
    if shouldRedirectStatus resp.StatusCode then
      match resp.Location with
      | none => .ok resp
      | some _ =>
        match policy with
        | .useLastResponse => .ok resp
        | .defaultFollow =>
          match fuel with
          | 0 => .error "stopped after 10 redirects"
          | fuel' + 1 => clientDoLoop send policy (hop + 1) fuel'
    else .ok resp

/-- The request execution of `Plugin.FetchMetrics` through the client of
`Plugin.httpClient`: its CheckRedirect returns ErrUseLastResponse. -/
def pluginClientDo (send : Nat → HTTPResponse) : Except String HTTPResponse :=
  clientDoLoop send .useLastResponse 0 9

/-- The decoded body of the worked example of the specification. -/
def exampleBody : List (String × JValue) :=
  [("queries", .num "42"), ("latency-avg1000000", .str "55.5"),
   ("acl-drops", .bool true), ("nested", .obj [("a", .num "1")])]

/-- The specification's catalog table (section 4.3): graph-key to the
ordered list of (metric name, stacked flag, diff flag). -/
def specCatalogTriples : List (String × List (String × Bool × Bool)) :=
  [ ("acl-drop", [("acl-drops", false, true)]),
    ("cache", [("cache-hits", true, true), ("cache-misses", true, true)]),
    ("downstream-errors",
      [("downstream-send-errors", false, true), ("downstream-timeouts", false, true)]),
    ("latency", [("latency-avg1000000", false, false)]),
    ("queries", [("queries", false, true), ("rdqueries", false, true)]),
    ("responses",
      [("responses", false, true), ("self-answered", false, true),
       ("servfail-responses", false, true)]),
    ("rule",
      [("rule-drop", true, true), ("rule-nxdomain", true, true), ("rule-refused", true, true),
       ("rule-servfail", true, true), ("rule-truncated", true, true)]),
    ("fd", [("fd-usage", false, false)]) ]

/-! ## Helper lemmas -/

/-- No fractional part begins at a character other than the point. -/
theorem fracScan_cons_ne (isD : Char → Bool) (c : Char) (cs : List Char) (h : ¬ c = '.') :
    fracScan isD (c :: cs) = ([], c :: cs) := by
  rw [fracScan.eq_def]
  split
  · next r heq =>
    injection heq with h1 _
    exact absurd h1 h
  · rfl

/-- ParseFloat fails on any text whose first character can start neither
a sign, a digit, a decimal point, nor a case-insensitive inf/nan. -/
theorem goParseFloat_eq_none_of_data (s : String) (c : Char) (cs : List Char)
    (hd : s.data = c :: cs)
    (h1 : c.isDigit = false) (h2 : ¬ c = '+') (h3 : ¬ c = '-') (h4 : ¬ c = '.')
    (h5 : ¬ c.toLower = 'i') (h6 : ¬ c.toLower = 'n') :
    goParseFloat s = none := by
  have hc0 : ¬ c = '0' := by
    intro h
    subst h
    simp at h1
  have hinf : "inf".data = ['i', 'n', 'f'] := rfl
  have hinfy : "infinity".data = ['i', 'n', 'f', 'i', 'n', 'i', 't', 'y'] := rfl
  have hnan : "nan".data = ['n', 'a', 'n'] := rfl
  have hspec : parseSpecial (c :: cs) = none := by
    simp [parseSpecial, h2, h3, lowerStr, hinf, hinfy, hnan, h5, h6]
  have hscan : scanDigitsU Char.isDigit (c :: cs) = ([], c :: cs) := by
    simp [scanDigitsU, h1]
  have hdec : parseDecNumber (c :: cs) = none := by
    simp [parseDecNumber, hscan, fracScan_cons_ne Char.isDigit c cs h4]
  have hnum : parseNumber (c :: cs) = none := by
    cases cs with
    | nil =>
      rw [parseNumber]
      · exact hdec
      · intro c0 c1 rest h
        simp at h
    | cons c1 rest =>
      rw [parseNumber]
      rw [if_neg (fun hand => hc0 hand.1)]
      exact hdec
  simp [goParseFloat, hd, hspec, h2, h3, hnum]

/-- Rendering an object yields a string starting with the letter m. -/
theorem sprintfV_obj_data (fs : List (String × JValue)) :
    ∃ t, (sprintfV (JValue.obj fs)).data = 'm' :: t := by
  have h : sprintfV (JValue.obj fs)
      = "map[" ++ String.intercalate " "
          ((sortByKey (sprintfVFields fs)).map (fun kv => kv.1 ++ ":" ++ kv.2)) ++ "]" := by
    simp [sprintfV]
  rw [h, String.data_append, String.data_append]
  exact ⟨_, rfl⟩

/-- Rendering an array yields a string starting with a bracket. -/
theorem sprintfV_arr_data (xs : List JValue) :
    ∃ t, (sprintfV (JValue.arr xs)).data = '[' :: t := by
  have h : sprintfV (JValue.arr xs)
      = "[" ++ String.intercalate " " (sprintfVList xs) ++ "]" := by
    simp [sprintfV]
  rw [h, String.data_append, String.data_append]
  exact ⟨_, rfl⟩

/-! ## C1 -/

/-- C1: FetchMetrics coerces each top-level field through a string
conversion and ParseFloat, silently dropping every key whose value fails
to convert (nested objects, arrays, booleans and null always fail),
without failing the call (the coercion is a total function); on the
worked example exactly queries = 42.0 and latency-avg1000000 = 55.5
survive. -/
theorem c1_fetchMetrics_coercion :
    coerceMetrics exampleBody
      = [("queries", .finite 42), ("latency-avg1000000", .finite (mkRat 111 2))]
    ∧ (∀ fs, goParseFloat (sprintfV (JValue.obj fs)) = none)
    ∧ (∀ xs, goParseFloat (sprintfV (JValue.arr xs)) = none)
    ∧ (∀ b, goParseFloat (sprintfV (JValue.bool b)) = none)
    ∧ goParseFloat (sprintfV JValue.null) = none := by
  refine ⟨by decide, ?_, ?_, ?_, by decide⟩
  · intro fs
    obtain ⟨t, ht⟩ := sprintfV_obj_data fs
    exact goParseFloat_eq_none_of_data _ 'm' t ht (by decide) (by decide) (by decide)
      (by decide) (by decide) (by decide)
  · intro xs
    obtain ⟨t, ht⟩ := sprintfV_arr_data xs
    exact goParseFloat_eq_none_of_data _ '[' t ht (by decide) (by decide) (by decide)
      (by decide) (by decide) (by decide)
  · intro b
    cases b <;> decide

/-! ## C7 -/

/-- C7: with UseNumber a top-level JSON number reaches the coercion as
its literal decimal text, so the `%v` rendering is that text itself and
the resulting value is exactly the direct ParseFloat of the number's
decimal text, with no intermediate float reinterpretation. -/
theorem c7_number_precision :
    (∀ n : String, sprintfV (JValue.num n) = n)
    ∧ (∀ (k n : String), coerceMetrics [(k, JValue.num n)]
        = (goParseFloat n).elim [] (fun f => [(k, f)])) := by
  refine ⟨fun n => rfl, fun k n => ?_⟩
  have hs : sprintfV (JValue.num n) = n := rfl
  cases h : goParseFloat n <;> simp [coerceMetrics, hs, h]

/-! ## C8 -/

/-- C8: the code's display label for the rdqueries metric of the queries
graph is the misspelled "Query widh rd bit" (main.go:138), not the
"Query with rd bit" the specification's table lists; the name, the
non-stacked flag and the diff flag are otherwise as specified. -/
theorem c8_rdqueries_label :
    ((List.lookup "queries"
        (GraphDefinition { Prefix := "dnsdist", URL := "", Timeout := 0, APIKey := "" })).map
      (fun g => g.Metrics.map (fun m => (m.Name, m.Label, m.Stacked, m.Diff))))
      = some [("queries", "Queries", false, true), ("rdqueries", "Query widh rd bit", false, true)]
    ∧ "Query widh rd bit" ≠ "Query with rd bit" :=
  ⟨by decide, by decide⟩

/-! ## C2 -/

/-- C2: GetAPIKey returns an explicit key verbatim; with no explicit key
it returns the empty string on an unreadable file or a pattern miss, and
the first match's captured quoted string otherwise; on the worked
example it returns secret123. -/
theorem c2_getAPIKey_resolution :
    (∀ (k : String) (conf : Option String), k ≠ "" → GetAPIKey k conf = k)
    ∧ GetAPIKey "" none = ""
    ∧ (∀ content, findFirstMatch content = none → GetAPIKey "" (some content) = "")
    ∧ (∀ content g, findFirstMatch content = some g → GetAPIKey "" (some content) = g)
    ∧ GetAPIKey "" (some exampleConf) = "secret123" := by
  refine ⟨?_, rfl, ?_, ?_, by decide⟩
  · intro k conf hk
    simp [GetAPIKey, hk]
  · intro content h
    simp [GetAPIKey, h]
  · intro content g h
    simp [GetAPIKey, h]

theorem c2_getAPIKey_witness :
    GetAPIKey "explicit-key" (some exampleConf) = "explicit-key"
    ∧ GetAPIKey "" (some "no key here") = "" :=
  ⟨c2_getAPIKey_resolution.1 "explicit-key" (some exampleConf) (by decide),
   c2_getAPIKey_resolution.2.2.1 "no key here" (by decide)⟩

/-! ## C3 -/

/-- Every byte the host escaping leaves alone is ASCII. -/
theorem allowed_host_byte_lt (b : Nat) (h : shouldEscapeHostByte b = false) : b < 128 := by
  simp [shouldEscapeHostByte] at h
  omega

/-- An unescaped character passes through host escaping unchanged. -/
theorem escHost_char_id (c : Char) (h : shouldEscapeHostByte c.toNat = false) :
    ((utf8Bytes c).map escHostByte).flatten = [c] := by
  have hlt : c.toNat < 128 := allowed_host_byte_lt c.toNat h
  have hb : utf8Bytes c = [c.toNat] := by
    simp only [utf8Bytes]
    rw [if_pos hlt]
  rw [hb]
  simp [escHostByte, h, Char.ofNat_toNat]

theorem escapeHostList_all_id (l : List Char)
    (h : ∀ c ∈ l, shouldEscapeHostByte c.toNat = false) :
    escapeHostList l = l := by
  induction l with
  | nil => rfl
  | cons c rest ih =>
    rw [escapeHostList, escHost_char_id c (h c (by simp)), ih (fun x hx => h x (by simp [hx]))]
    rfl

theorem escapeHost_id (s : String)
    (h : s.data.all (fun c => !shouldEscapeHostByte c.toNat) = true) :
    escapeHost s = s := by
  obtain ⟨l⟩ := s
  show String.mk (escapeHostList l) = String.mk l
  have hid : escapeHostList l = l := by
    refine escapeHostList_all_id l ?_
    intro c hc
    have hall := List.all_eq_true.mp h c hc
    simpa using hall
  rw [hid]

/-- C3: for a host and port whose characters are untouched by host-mode
escaping and where the host contains no colon (so JoinHostPort adds no
brackets), the constructed URL is the exact verbatim substitution
demanded by the specification. -/
theorem c3_url_construction (host port : String)
    (hh : host.data.all (fun c => !shouldEscapeHostByte c.toNat) = true)
    (hc : host.data.contains ':' = false)
    (hp : port.data.all (fun c => !shouldEscapeHostByte c.toNat) = true) :
    optURL host port = "http://" ++ host ++ ":" ++ port ++ "/jsonstat?command=stats" := by
  have hjoin : joinHostPort host port = host ++ ":" ++ port := by
    rw [joinHostPort, if_neg (by rw [hc]; simp)]
  have hall : (host ++ ":" ++ port).data.all (fun c => !shouldEscapeHostByte c.toNat) = true := by
    rw [String.data_append, String.data_append]
    simp only [List.all_append, Bool.and_eq_true]
    exact ⟨⟨hh, by decide⟩, hp⟩
  rw [optURL, hjoin, escapeHost_id _ hall]
  simp [String.append_assoc]

theorem c3_url_witness :
    optURL "127.0.0.1" "8083" = "http://127.0.0.1:8083/jsonstat?command=stats" :=
  c3_url_construction "127.0.0.1" "8083" (by decide) (by decide) (by decide)

/-! ## C4 -/

/-- C4: for every plugin state, GraphDefinition yields exactly the eight
graph-keys of the specification in its order, and per graph-key the
ordered metric names, stacked flags and diff flags reproduce the
specification's table exactly. -/
theorem c4_graphDefinition_catalog (p : Plugin) :
    (GraphDefinition p).map
        (fun kv => (kv.1, kv.2.Metrics.map (fun m => (m.Name, m.Stacked, m.Diff))))
      = specCatalogTriples := rfl

/-! ## C5 -/

/-- C5: with the plugin's CheckRedirect policy, the client answers with
the very first response for every server behavior and never follows: a
redirect status (all of 301, 302, 303, 307, 308, hence every redirect
the loop recognizes) is returned as-is with no error. -/
theorem c5_no_redirect_follow (send : Nat → HTTPResponse) :
    pluginClientDo send = .ok (send 0)
    ∧ shouldRedirectStatus 302 = true := by
  refine ⟨?_, rfl⟩
  simp only [pluginClientDo, clientDoLoop]
  by_cases h : shouldRedirectStatus (send 0).StatusCode = true
  · simp only [h, if_true]
    cases hL : (send 0).Location <;> rfl
  · simp [h]

/-! ## C6 -/

/-- C6: every display label of the catalog begins with the title-cased
prefix followed by a colon (the label splits as that prefix, a colon and
a rest), and for prefix foo the cache graph label starts with Foo
followed by the colon. -/
theorem c6_label_prefix :
    (∀ p : Plugin, ((GraphDefinition p).map (fun kv => kv.2.Label)).Forall
        (fun l => ∃ rest, l = stringsTitle p.Prefix ++ ":" ++ rest))
    ∧ ((List.lookup "cache"
          (GraphDefinition { Prefix := "foo", URL := "", Timeout := 0, APIKey := "" })).map
        mp.Graphs.Label = some ("Foo:" ++ " Packet Cache")) := by
  constructor
  · intro p
    simp only [GraphDefinition, List.map_cons, List.map_nil]
    refine ⟨⟨_, (String.append_assoc _ ":" " Dropped packets becaused of the ACL").symm⟩,
      ⟨_, (String.append_assoc _ ":" " Packet Cache").symm⟩,
      ⟨_, (String.append_assoc _ ":" " Backend errors").symm⟩,
      ⟨_, (String.append_assoc _ ":" " Latency (microseconds)").symm⟩,
      ⟨_, (String.append_assoc _ ":" " Queries").symm⟩,
      ⟨_, (String.append_assoc _ ":" " Response").symm⟩,
      ⟨_, (String.append_assoc _ ":" " Returned because of rules").symm⟩,
      ⟨_, (String.append_assoc _ ":" " FD usage").symm⟩⟩
  · decide

/-! ## C9 -/

/-- A successful hereApiKey consumption starts with the apiKey literal. -/
theorem hereApiKey_decomp (prev : Char) (cs g : List Char)
    (h : hereApiKey prev cs = some g) :
    ∃ post, cs = "apiKey".data ++ post ∧ tailMatch post = some g := by
  rw [hereApiKey] at h
  by_cases hw : isWordChar prev = true
  · rw [if_pos hw] at h
    exact absurd h (by simp)
  · rw [if_neg hw] at h
    by_cases hp : "apiKey".data.isPrefixOf cs = true
    · rw [if_pos hp] at h
      obtain ⟨post, happ⟩ := List.isPrefixOf_iff_prefix.mp hp
      have h6 : ("apiKey".data).length = 6 := rfl
      have hdrop : cs.drop 6 = post := by
        rw [← happ, ← h6]
        exact List.drop_left _ _
      rw [hdrop] at h
      exact ⟨post, happ.symm, h⟩
    · rw [if_neg hp] at h
      exact absurd h (by simp)

/-- Whatever `.*\bapiKey...` matches splits the text into a newline-free
span, the apiKey literal, and the tail. -/
theorem findApiKeyGreedy_decomp :
    ∀ (cs : List Char) (prev : Char) (g : List Char),
      findApiKeyGreedy prev cs = some g →
      ∃ pre post, cs = pre ++ ("apiKey".data ++ post) ∧ '\n' ∉ pre
        ∧ tailMatch post = some g := by
  intro cs
  induction cs with
  | nil =>
    intro prev g h
    rw [findApiKeyGreedy] at h
    exact absurd h (by simp)
  | cons c rest ih =>
    intro prev g h
    rw [findApiKeyGreedy] at h
    by_cases hc : c = '\n'
    · rw [if_pos hc] at h
      have h' : hereApiKey prev (c :: rest) = some g := h
      obtain ⟨post, hcs, ht⟩ := hereApiKey_decomp prev (c :: rest) g h'
      exact ⟨[], post, by simpa using hcs, by simp, ht⟩
    · rw [if_neg hc] at h
      cases hrec : findApiKeyGreedy c rest with
      | some g0 =>
        simp only [hrec] at h
        have hgg : g0 = g := by simpa using h
        subst hgg
        obtain ⟨pre, post, hcs, hnl, ht⟩ := ih c g0 hrec
        refine ⟨c :: pre, post, ?_, ?_, ht⟩
        · rw [List.cons_append, hcs]
        · intro hm
          rcases List.mem_cons.mp hm with h1 | h2
          · exact hc h1.symm
          · exact hnl h2
      | none =>
        simp only [hrec] at h
        obtain ⟨post, hcs, ht⟩ := hereApiKey_decomp prev (c :: rest) g h
        exact ⟨[], post, by simpa using hcs, by simp, ht⟩

/-- Whatever `.*\{...` matches splits the text into a newline-free span,
the brace, and the tail matched from the brace onwards. -/
theorem findBraceGreedy_decomp :
    ∀ (cs g : List Char), findBraceGreedy cs = some g →
      ∃ pre post, cs = pre ++ ('{' :: post) ∧ '\n' ∉ pre
        ∧ findApiKeyGreedy '{' post = some g := by
  intro cs
  induction cs with
  | nil =>
    intro g h
    rw [findBraceGreedy] at h
    exact absurd h (by simp)
  | cons c rest ih =>
    intro g h
    rw [findBraceGreedy] at h
    by_cases hc : c = '\n'
    · rw [if_pos hc] at h
      have h' : (if c = '{' then findApiKeyGreedy '{' rest else none) = some g := h
      rw [if_neg (by rw [hc]; decide)] at h'
      exact absurd h' (by simp)
    · rw [if_neg hc] at h
      cases hrec : findBraceGreedy rest with
      | some g0 =>
        simp only [hrec] at h
        have hgg : g0 = g := by simpa using h
        subst hgg
        obtain ⟨pre, post, hcs, hnl, ha⟩ := ih g0 hrec
        refine ⟨c :: pre, post, ?_, ?_, ha⟩
        · rw [List.cons_append, hcs]
        · intro hm
          rcases List.mem_cons.mp hm with h1 | h2
          · exact hc h1.symm
          · exact hnl h2
      | none =>
        simp only [hrec] at h
        by_cases hb : c = '{'
        · rw [if_pos hb] at h
          subst hb
          exact ⟨[], rest, rfl, by simp, h⟩
        · rw [if_neg hb] at h
          exact absurd h (by simp)

/-- Whatever the full pattern matches starts at an occurrence of the
setWebserverConfig literal. -/
theorem findFirstMatchAux_decomp :
    ∀ (cs g : List Char), findFirstMatchAux cs = some g →
      ∃ pre post, cs = pre ++ (wsConfigLit ++ post) ∧ findBraceGreedy post = some g := by
  intro cs
  induction cs with
  | nil =>
    intro g h
    rw [findFirstMatchAux] at h
    exact absurd h (by simp)
  | cons c rest ih =>
    intro g h
    rw [findFirstMatchAux] at h
    by_cases hp : wsConfigLit.isPrefixOf (c :: rest) = true
    · rw [if_pos hp] at h
      cases hfb : findBraceGreedy ((c :: rest).drop wsConfigLit.length) with
      | some g0 =>
        simp only [hfb] at h
        have hgg : g0 = g := by simpa using h
        subst hgg
        obtain ⟨post, happ⟩ := List.isPrefixOf_iff_prefix.mp hp
        have hdrop : (c :: rest).drop wsConfigLit.length = post := by
          rw [← happ]
          exact List.drop_left _ _
        rw [hdrop] at hfb
        exact ⟨[], post, by simpa using happ.symm, hfb⟩
      | none =>
        simp only [hfb] at h
        obtain ⟨pre, post, hcs, hb⟩ := ih g h
        exact ⟨c :: pre, post, by rw [List.cons_append, hcs], hb⟩
    · rw [if_neg hp] at h
      have h' : findFirstMatchAux rest = some g := h
      obtain ⟨pre, post, hcs, hb⟩ := ih g h'
      exact ⟨c :: pre, post, by rw [List.cons_append, hcs], hb⟩

theorem GetAPIKey_some_eq (content : String) :
    GetAPIKey "" (some content)
      = ((findFirstMatchAux content.data).map List.asString).getD "" := by
  cases hma : findFirstMatchAux content.data with
  | none => simp [GetAPIKey, findFirstMatch, hma]
  | some g => simp [GetAPIKey, findFirstMatch, hma]

/-- C9 (amended): a key is extracted only when the setWebserverConfig(
opening, the brace and the apiKey token all sit on one line: the spans
the two `.*` of the pattern consume are newline-free. Contrapositively a
newline separating setWebserverConfig( from the apiKey token forces the
empty result. (The rest of the assignment may continue on later lines,
since the regexp class for whitespace matches a newline.) -/
theorem c9_apiKey_regexp_oneline (content : String)
    (h : GetAPIKey "" (some content) ≠ "") :
    ∃ pre1 pre2 pre3 post,
      content.data
        = pre1 ++ (wsConfigLit ++ (pre2 ++ ('{' :: (pre3 ++ ("apiKey".data ++ post)))))
      ∧ '\n' ∉ pre2 ∧ '\n' ∉ pre3 := by
  rw [GetAPIKey_some_eq content] at h
  cases hma : findFirstMatchAux content.data with
  | none =>
    rw [hma] at h
    simp at h
  | some g =>
    obtain ⟨pre1, post0, hcs1, hb⟩ := findFirstMatchAux_decomp content.data g hma
    obtain ⟨pre2, post1, hcs2, hnl2, ha⟩ := findBraceGreedy_decomp post0 g hb
    obtain ⟨pre3, post, hcs3, hnl3, ht⟩ := findApiKeyGreedy_decomp post1 '{' g ha
    refine ⟨pre1, pre2, pre3, post, ?_, hnl2, hnl3⟩
    rw [hcs1, hcs2, hcs3]

theorem c9_apiKey_regexp_oneline_witness :
    ∃ pre1 pre2 pre3 post,
      exampleConf.data
        = pre1 ++ (wsConfigLit ++ (pre2 ++ ('{' :: (pre3 ++ ("apiKey".data ++ post)))))
      ∧ '\n' ∉ pre2 ∧ '\n' ∉ pre3 :=
  c9_apiKey_regexp_oneline exampleConf (by decide)

/-- C9 (counterexample): the regexp does cross a line break inside the
assignment, because its whitespace class matches newline; on badConf the
setWebserverConfig( opening, the brace and the apiKey token share the
first line but the quoted value sits on the second, and GetAPIKey still
returns the key, refuting the claim that the whole assignment must
occur on one line for a key to be returned. -/
theorem c9_apiKey_regexp_counterexample :
    GetAPIKey "" (some badConf) = "x" ∧ ("x" : String) ≠ ""
    ∧ badConf.data = "setWebserverConfig(\x7b apiKey =".data ++ '\n' :: "\"x\" \x7d)".data :=
  ⟨by decide, by decide, by decide⟩

/-! ## C10 -/

/-- C10: MetricKeyPrefix never returns the empty string: it returns
dnsdist when the stored prefix is empty and the stored prefix verbatim
otherwise; after one call the Prefix field is non-empty and a second
call returns the same value with the state unchanged. -/
theorem c10_metricKeyPrefix (p : Plugin) :
    (MetricKeyPrefix p).1 ≠ ""
    ∧ (p.Prefix = "" → (MetricKeyPrefix p).1 = "dnsdist")
    ∧ (p.Prefix ≠ "" → (MetricKeyPrefix p).1 = p.Prefix)
    ∧ (MetricKeyPrefix p).2.Prefix ≠ ""
    ∧ MetricKeyPrefix (MetricKeyPrefix p).2 = ((MetricKeyPrefix p).1, (MetricKeyPrefix p).2) := by
  by_cases h : p.Prefix = ""
  · simp [MetricKeyPrefix, h]
  · simp [MetricKeyPrefix, h]

theorem c10_metricKeyPrefix_witness :
    (MetricKeyPrefix { Prefix := "", URL := "", Timeout := 0, APIKey := "" }).1 = "dnsdist"
    ∧ (MetricKeyPrefix { Prefix := "custom", URL := "", Timeout := 0, APIKey := "" }).1
        = "custom" :=
  ⟨(c10_metricKeyPrefix _).2.1 rfl, (c10_metricKeyPrefix _).2.2.1 (by decide)⟩
